import Mathlib

/-!
Shallow embedding of the rule-evaluation and multi-source reconciliation core
of the audit-sampling tool (modules DVKH.py, hdv.py, to_khai_hq.py,
chuyen_tien.py and error_utils.py), together with theorems settling the
specification claims.  Strings are modeled through their character lists,
calendar dates as whole-day numbers (Int), decimal cell values as rationals,
and missing cells (pandas NaN / NaT) as Option.
-/

namespace TongTC

/-! ## String primitives (Python str.strip / str.lower / str.upper fragments) -/

/-- Characters removed by Python str.strip (ASCII whitespace fragment). -/
def isSpaceChar (c : Char) : Bool :=
  c == ' ' || c == '\t' || c == '\n' || c == '\r'

/-- Python str.strip on a character list: drop leading and trailing whitespace. -/
def stripList (l : List Char) : List Char :=
  ((l.dropWhile isSpaceChar).reverse.dropWhile isSpaceChar).reverse

/-- Python str.strip. -/
def pyStrip (s : String) : String := String.mk (stripList s.data)

/-- ASCII decimal digit test (the regex class backslash-d used by DVKH.py). -/
def isAsciiDigit (c : Char) : Bool := decide (48 ≤ c.toNat ∧ c.toNat ≤ 57)

/-- Lower-case one character (ASCII fragment of Python str.lower). -/
def lowerChar (c : Char) : Char :=
  if 65 ≤ c.toNat ∧ c.toNat ≤ 90 then Char.ofNat (c.toNat + 32) else c

/-- Upper-case one character (ASCII fragment of Python str.upper). -/
def upperChar (c : Char) : Char :=
  if 97 ≤ c.toNat ∧ c.toNat ≤ 122 then Char.ofNat (c.toNat - 32) else c

/-- Python str.lower (ASCII fragment). -/
def pyLower (s : String) : String := String.mk (s.data.map lowerChar)

/-- Python str.upper (ASCII fragment). -/
def pyUpper (s : String) : String := String.mk (s.data.map upperChar)

/-! ## Decimal rendering and parsing of integer identifiers -/

/-- The character rendering decimal digit d (for d smaller than 10). -/
def digitChar10 (d : Nat) : Char := Char.ofNat (48 + d)

/-- Decimal digit characters of n, most significant first; the first argument
is structural fuel, sufficient whenever n is at most the fuel. -/
def natStrAux : Nat → Nat → List Char
  | 0, _ => []
  | fuel + 1, n => if n = 0 then [] else natStrAux fuel (n / 10) ++ [digitChar10 (n % 10)]

/-- Decimal rendering of a natural number, most significant digit first.
Embeds Python str applied to a non-negative int. -/
def natStr (n : Nat) : String :=
  if n = 0 then "0" else String.mk (natStrAux n n)

/-- Fragment of the character class backslash-d of Python re, which matches
every Unicode decimal digit (category Nd), not only ASCII: the embedding
covers the ASCII digits and the Arabic-Indic digits U+0660 to U+0669, and is
exact on its modeled character set. -/
def pyDigitChar (c : Char) : Bool :=
  isAsciiDigit c || decide (1632 ≤ c.toNat ∧ c.toNat ≤ 1641)

/-- Numeric value of a (modeled) Unicode decimal digit character. -/
def pyDigitVal (c : Char) : Nat :=
  if isAsciiDigit c then c.toNat - 48 else c.toNat - 1632

/-- Value of a most-significant-first list of decimal digit characters.
Embeds Python int/float applied to a digit string, which also accept the
non-ASCII Unicode decimal digits. -/
def digitsVal (l : List Char) : Nat :=
  l.foldl (fun a c => 10 * a + pyDigitVal c) 0

/-- All characters are the zero digit. -/
def allZeros (l : List Char) : Bool := l.all (· == '0')

/-- After the integer digits, the regex of DVKH.norm_custseq allows either
nothing or a dot followed by one or more zero digits (the 0 of the pattern is
the literal ASCII zero). -/
def fracOk (l : List Char) : Bool :=
  match l with
  | [] => true
  | '.' :: rest => !rest.isEmpty && allZeros rest
  | _ => false

/-- Test for the anchored regex of DVKH.norm_custseq, lines 250-252: one or
more decimal digits optionally followed by a dot and one or more zeros. -/
def matchesIntOptZeros (l : List Char) : Bool :=
  !(l.takeWhile pyDigitChar).isEmpty && fracOk (l.dropWhile pyDigitChar)

/-- Number of binary digits of the second argument; the first argument is
structural fuel, sufficient whenever it bounds the recursion depth. -/
def bitLenAux : Nat → Nat → Nat
  | 0, _ => 0
  | fuel + 1, n => if n = 0 then 0 else bitLenAux fuel (n / 2) + 1

/-- Number of binary digits of n (0 for 0). -/
def bitLen (n : Nat) : Nat := bitLenAux n n

/-- Round n to the nearest multiple of 2 to the e, ties to the multiple with
an even quotient (IEEE-754 round to nearest, ties to even). -/
def roundAt (n e : Nat) : Nat :=
  if 2 ^ (e - 1) < n % 2 ^ e ∨ (n % 2 ^ e = 2 ^ (e - 1) ∧ n / 2 ^ e % 2 = 1)
  then (n / 2 ^ e + 1) * 2 ^ e
  else n / 2 ^ e * 2 ^ e

/-- Value of the IEEE-754 double nearest to the nonnegative integer n, with
unbounded exponent: n itself up to 53 bits, otherwise n rounded to a 53-bit
significand.  CPython float() of a decimal digit string is correctly rounded,
so this is the integer value of float(sx) for a matched string of value n
whenever the result is finite. -/
def roundFloat (n : Nat) : Nat :=
  if bitLen n ≤ 53 then n else roundAt n (bitLen n - 53)

/-- Embeds Python int(float(sx)) for a matched digit string of integer value
n: the correctly rounded double when finite, and none when the rounded value
reaches 2 to the 1024, where float() returns infinity and int() raises
OverflowError (caught by the bare except of norm_custseq). -/
def pyIntFloat (n : Nat) : Option Nat :=
  if 2 ^ 1024 ≤ roundFloat n then none else some (roundFloat n)

/-- Key/value normalizer norm_custseq of DVKH.py, lines 243-255.  The input
is the raw cell value, with none embedding a pandas NaN (pd.isna).  The
numeric branch computes str(int(float(sx))), embedded through pyIntFloat:
values above 2 to the 53 are rounded by the float round-trip, and an overflow
of int(float(sx)) is caught by the bare except and yields NA. -/
def norm_custseq (x : Option String) : String :=
  match x with
  | none => "NA"
  | some s =>
    let sx := pyStrip s
    if sx = "" then "NA"
    else if pyLower sx = "nan" then "NA"
    else if matchesIntOptZeros sx.data then
      match pyIntFloat (digitsVal (sx.data.takeWhile pyDigitChar)) with
      | some m => natStr m
      | none => "NA"
    else sx

/-! ## Helper lemmas on digit strings and stripping -/

theorem digitChar10_toNat (d : Nat) (h : d < 10) : (digitChar10 d).toNat = 48 + d := by
  interval_cases d <;> rfl

theorem isAsciiDigit_digitChar10 (d : Nat) (h : d < 10) : isAsciiDigit (digitChar10 d) = true := by
  interval_cases d <;> rfl

theorem pyDigitVal_digitChar10 (d : Nat) (h : d < 10) : pyDigitVal (digitChar10 d) = d := by
  interval_cases d <;> rfl

theorem pyDigitChar_of_ascii (c : Char) (h : isAsciiDigit c = true) :
    pyDigitChar c = true := by
  simp [pyDigitChar, h]

theorem lowerChar_of_pyDigit (c : Char) (h : pyDigitChar c = true) : lowerChar c = c := by
  simp only [pyDigitChar, Bool.or_eq_true, decide_eq_true_eq, isAsciiDigit] at h
  have hno : ¬(65 ≤ c.toNat ∧ c.toNat ≤ 90) := by omega
  simp only [lowerChar, if_neg hno]

theorem natStrAux_all_digits (fuel n : Nat) :
    ∀ c ∈ natStrAux fuel n, isAsciiDigit c = true := by
  induction fuel generalizing n with
  | zero => intro c hc; simp [natStrAux] at hc
  | succ f ih =>
    intro c hc
    by_cases hn : n = 0
    · simp [natStrAux, hn] at hc
    · simp only [natStrAux, if_neg hn, List.mem_append, List.mem_singleton] at hc
      rcases hc with hc | hc
      · exact ih _ c hc
      · subst hc; exact isAsciiDigit_digitChar10 _ (Nat.mod_lt _ (by omega))

theorem digitsVal_append_singleton (l : List Char) (c : Char) :
    digitsVal (l ++ [c]) = 10 * digitsVal l + pyDigitVal c := by
  simp [digitsVal, List.foldl_append]

theorem digitsVal_natStrAux (fuel n : Nat) (h : n ≤ fuel) :
    digitsVal (natStrAux fuel n) = n := by
  induction fuel generalizing n with
  | zero =>
    have : n = 0 := by omega
    subst this; rfl
  | succ f ih =>
    by_cases hn : n = 0
    · subst hn; rfl
    · have hdiv : n / 10 ≤ f := by
        have := Nat.div_lt_self (by omega : 0 < n) (by omega : 1 < 10)
        omega
      simp only [natStrAux, if_neg hn, digitsVal_append_singleton, ih _ hdiv,
        pyDigitVal_digitChar10 _ (Nat.mod_lt _ (by omega : (0:Nat) < 10))]
      omega

theorem natStr_data_all_digits (n : Nat) :
    ∀ c ∈ (natStr n).data, isAsciiDigit c = true := by
  intro c hc
  by_cases hn : n = 0
  · subst hn; simp [natStr] at hc; subst hc; rfl
  · simp only [natStr, if_neg hn] at hc
    exact natStrAux_all_digits n n c hc

theorem natStr_data_ne_nil (n : Nat) : (natStr n).data ≠ [] := by
  by_cases hn : n = 0
  · subst hn; simp [natStr]
  · simp only [natStr, if_neg hn]
    obtain ⟨f, rfl⟩ : ∃ f, n = f + 1 := ⟨n - 1, by omega⟩
    simp only [natStrAux, if_neg hn]
    exact List.append_ne_nil_of_right_ne_nil _ (List.cons_ne_nil _ _)

theorem digitsVal_natStr (n : Nat) : digitsVal (natStr n).data = n := by
  by_cases hn : n = 0
  · subst hn; rfl
  · simp only [natStr, if_neg hn]
    exact digitsVal_natStrAux n n le_rfl

theorem lowerChar_of_digit (c : Char) (h : isAsciiDigit c = true) : lowerChar c = c := by
  simp only [isAsciiDigit, decide_eq_true_eq] at h
  simp only [lowerChar, if_neg (by omega : ¬(65 ≤ c.toNat ∧ c.toNat ≤ 90))]

theorem isSpaceChar_eq_false_of_digit (c : Char) (h : isAsciiDigit c = true) :
    isSpaceChar c = false := by
  cases hs : isSpaceChar c with
  | false => rfl
  | true =>
    exfalso
    simp only [isSpaceChar, Bool.or_eq_true, beq_iff_eq] at hs
    rcases hs with ((rfl | rfl) | rfl) | rfl <;> exact absurd h (by decide)

theorem stripList_of_no_space (l : List Char) (h : ∀ c ∈ l, isSpaceChar c = false) :
    stripList l = l := by
  unfold stripList
  have h1 : l.dropWhile isSpaceChar = l := by
    rcases l with _ | ⟨c, t⟩
    · rfl
    · rw [List.dropWhile_cons_of_neg]
      simp [h c (by simp)]
  rw [h1]
  have h2 : l.reverse.dropWhile isSpaceChar = l.reverse := by
    rcases hr : l.reverse with _ | ⟨c, t⟩
    · rfl
    · rw [List.dropWhile_cons_of_neg]
      have : c ∈ l := by
        have : c ∈ l.reverse := by rw [hr]; simp
        simpa using this
      simp [h c this]
  rw [h2, List.reverse_reverse]

theorem stripList_idem (l : List Char) : stripList (stripList l) = stripList l := by
  unfold stripList
  set p := isSpaceChar
  set A := l.dropWhile p with hA
  set m := (A.reverse.dropWhile p).reverse with hm
  have hmr : m = List.rdropWhile p A := rfl
  have hdropA : A.dropWhile p = A := by
    rw [hA, List.dropWhile_idempotent]
  have hpre : m <+: A := by rw [hmr]; exact List.rdropWhile_prefix p A
  have hdropm : m.dropWhile p = m := by
    rcases hm2 : m with _ | ⟨c, t⟩
    · rfl
    · obtain ⟨r, hr⟩ := hpre
      rw [hm2] at hr
      have hc : p c = false := by
        rw [← hr] at hdropA
        cases hpc : p c with
        | false => rfl
        | true =>
          rw [List.cons_append, List.dropWhile_cons_of_pos hpc] at hdropA
          have hlen := congrArg List.length hdropA
          have hle : (List.dropWhile p (t ++ r)).length ≤ (t ++ r).length :=
            (List.dropWhile_suffix p).length_le
          simp at hlen
          simp at hle
          omega
      rw [List.dropWhile_cons_of_neg (by simp [hc])]
  calc ((m.dropWhile p).reverse.dropWhile p).reverse
      = (m.reverse.dropWhile p).reverse := by rw [hdropm]
    _ = List.rdropWhile p m := rfl
    _ = List.rdropWhile p (List.rdropWhile p A) := by rw [hmr]
    _ = List.rdropWhile p A := List.rdropWhile_idempotent p A
    _ = m := rfl

theorem pyStrip_pyStrip (s : String) : pyStrip (pyStrip s) = pyStrip s := by
  simp only [pyStrip, stripList_idem]

/-! ## Bit length and IEEE-754 double rounding of integers -/

theorem bitLenAux_zero (fuel : Nat) : bitLenAux fuel 0 = 0 := by
  cases fuel <;> rfl

theorem bitLenAux_lt_two_pow (fuel : Nat) :
    ∀ n : Nat, n ≤ fuel → n < 2 ^ bitLenAux fuel n := by
  induction fuel with
  | zero =>
    intro n h
    have hn : n = 0 := by omega
    subst hn
    simp [bitLenAux]
  | succ f ih =>
    intro n h
    by_cases hn : n = 0
    · subst hn; simp [bitLenAux]
    · simp only [bitLenAux, if_neg hn]
      have hdiv : n / 2 ≤ f := by
        have := Nat.div_lt_self (Nat.pos_of_ne_zero hn) (by omega : 1 < 2)
        omega
      have IH := ih (n / 2) hdiv
      have hmod : n % 2 < 2 := Nat.mod_lt _ (by omega)
      have hdm := Nat.div_add_mod n 2
      rw [pow_succ]
      omega

theorem two_pow_pred_le_bitLenAux (fuel : Nat) :
    ∀ n : Nat, n ≤ fuel → n ≠ 0 → 2 ^ (bitLenAux fuel n - 1) ≤ n := by
  induction fuel with
  | zero => intro n h hn; omega
  | succ f ih =>
    intro n h hn
    simp only [bitLenAux, if_neg hn, Nat.add_sub_cancel]
    by_cases h2 : n / 2 = 0
    · rw [h2, bitLenAux_zero]
      have := Nat.pos_of_ne_zero hn
      simpa using this
    · have hdiv : n / 2 ≤ f := by
        have := Nat.div_lt_self (Nat.pos_of_ne_zero hn) (by omega : 1 < 2)
        omega
      have IH := ih (n / 2) hdiv h2
      have hb : 1 ≤ bitLenAux f (n / 2) := by
        rcases f with - | f2
        · omega
        · simp only [bitLenAux, if_neg h2]
          omega
      have hpow : 2 ^ bitLenAux f (n / 2) = 2 * 2 ^ (bitLenAux f (n / 2) - 1) := by
        conv_lhs => rw [show bitLenAux f (n / 2) = bitLenAux f (n / 2) - 1 + 1 from by omega]
        rw [pow_succ]
        ring
      have hle : n / 2 * 2 ≤ n := Nat.div_mul_le_self n 2
      omega

theorem lt_two_pow_bitLen (n : Nat) : n < 2 ^ bitLen n :=
  bitLenAux_lt_two_pow n n le_rfl

theorem two_pow_bitLen_pred_le (n : Nat) (h : n ≠ 0) : 2 ^ (bitLen n - 1) ≤ n :=
  two_pow_pred_le_bitLenAux n n le_rfl h

theorem bitLen_le_iff (n k : Nat) : bitLen n ≤ k ↔ n < 2 ^ k := by
  constructor
  · intro h
    exact lt_of_lt_of_le (lt_two_pow_bitLen n) (Nat.pow_le_pow_right (by omega) h)
  · intro h
    by_contra hc
    push_neg at hc
    have hn : n ≠ 0 := by
      intro e
      subst e
      rw [show bitLen 0 = 0 from rfl] at hc
      omega
    have h1 := two_pow_bitLen_pred_le n hn
    have h2 : (2:Nat) ^ k ≤ 2 ^ (bitLen n - 1) := Nat.pow_le_pow_right (by omega) (by omega)
    omega

theorem bitLen_eq_of_bounds (n k : Nat) (hk : 1 ≤ k)
    (h1 : 2 ^ (k - 1) ≤ n) (h2 : n < 2 ^ k) : bitLen n = k := by
  have hub : bitLen n ≤ k := (bitLen_le_iff n k).mpr h2
  have hp : (0:Nat) < 2 ^ (k - 1) := pow_pos (by omega) _
  by_contra hne
  have hlt : bitLen n ≤ k - 1 := by omega
  have := (bitLen_le_iff n (k - 1)).mp hlt
  omega

theorem roundAt_shape (n e : Nat) :
    roundAt n e = n / 2 ^ e * 2 ^ e ∨ roundAt n e = (n / 2 ^ e + 1) * 2 ^ e := by
  unfold roundAt
  by_cases h : 2 ^ (e - 1) < n % 2 ^ e ∨ (n % 2 ^ e = 2 ^ (e - 1) ∧ n / 2 ^ e % 2 = 1)
  · right; rw [if_pos h]
  · left; rw [if_neg h]

theorem roundAt_of_mod_eq_zero (n e : Nat) (h : n % 2 ^ e = 0) :
    roundAt n e = n := by
  unfold roundAt
  have hp : (0:Nat) < 2 ^ (e - 1) := pow_pos (by omega) _
  have hcond : ¬(2 ^ (e - 1) < n % 2 ^ e ∨
      (n % 2 ^ e = 2 ^ (e - 1) ∧ n / 2 ^ e % 2 = 1)) := by
    rintro (hlt | ⟨heq, -⟩)
    · rw [h] at hlt; omega
    · rw [h] at heq; omega
  rw [if_neg hcond]
  exact Nat.div_mul_cancel (Nat.dvd_of_mod_eq_zero h)

theorem roundFloat_small (n : Nat) (h : n < 2 ^ 53) : roundFloat n = n := by
  unfold roundFloat
  rw [if_pos ((bitLen_le_iff n 53).mpr h)]

theorem roundFloat_eq_self_of_dvd (m : Nat) (h53 : 53 < bitLen m)
    (hd : m % 2 ^ (bitLen m - 53) = 0) : roundFloat m = m := by
  unfold roundFloat
  rw [if_neg (by omega), roundAt_of_mod_eq_zero m _ hd]

theorem roundFloat_mul_pow_eq_self (q e : Nat) (he : 1 ≤ e)
    (hlo : 2 ^ 52 ≤ q) (hhi : q ≤ 2 ^ 53) :
    roundFloat (q * 2 ^ e) = q * 2 ^ e := by
  rcases eq_or_lt_of_le hhi with heq | hlt
  · subst heq
    have hval : (2:Nat) ^ 53 * 2 ^ e = 2 ^ (53 + e) := by rw [pow_add]
    have hb : bitLen (2 ^ 53 * 2 ^ e) = 54 + e := by
      apply bitLen_eq_of_bounds _ _ (by omega)
      · rw [hval, show 54 + e - 1 = 53 + e from by omega]
      · rw [hval]
        exact Nat.pow_lt_pow_right (by omega) (by omega)
    refine roundFloat_eq_self_of_dvd _ ?_ ?_
    · rw [hb]; omega
    · rw [hb, show 54 + e - 53 = e + 1 from by omega, hval]
      exact Nat.mod_eq_zero_of_dvd (pow_dvd_pow 2 (by omega))
  · have hb : bitLen (q * 2 ^ e) = 53 + e := by
      apply bitLen_eq_of_bounds _ _ (by omega)
      · rw [show 53 + e - 1 = 52 + e from by omega, pow_add]
        exact Nat.mul_le_mul_right _ hlo
      · rw [pow_add]
        exact (Nat.mul_lt_mul_right (pow_pos (by omega) e)).mpr hlt
    refine roundFloat_eq_self_of_dvd _ ?_ ?_
    · rw [hb]; omega
    · rw [hb, show 53 + e - 53 = e from by omega]
      exact Nat.mod_eq_zero_of_dvd (dvd_mul_left _ _)

theorem roundFloat_idem (n : Nat) : roundFloat (roundFloat n) = roundFloat n := by
  by_cases h : bitLen n ≤ 53
  · have hs : roundFloat n = n := by unfold roundFloat; rw [if_pos h]
    rw [hs]
    exact hs
  · have hn0 : n ≠ 0 := by
      intro e
      subst e
      exact h (by decide)
    have he1 : 1 ≤ bitLen n - 53 := by omega
    have hrf : roundFloat n = roundAt n (bitLen n - 53) := by
      unfold roundFloat
      rw [if_neg h]
    have hpe : (0:Nat) < 2 ^ (bitLen n - 53) := pow_pos (by omega) _
    have hq_hi : n / 2 ^ (bitLen n - 53) < 2 ^ 53 := by
      rw [Nat.div_lt_iff_lt_mul hpe]
      calc n < 2 ^ bitLen n := lt_two_pow_bitLen n
        _ = 2 ^ 53 * 2 ^ (bitLen n - 53) := by
            rw [← pow_add]
            congr 1
            omega
    have hq_lo : 2 ^ 52 ≤ n / 2 ^ (bitLen n - 53) := by
      rw [Nat.le_div_iff_mul_le hpe]
      calc (2:Nat) ^ 52 * 2 ^ (bitLen n - 53) = 2 ^ (52 + (bitLen n - 53)) := by
            rw [← pow_add]
        _ = 2 ^ (bitLen n - 1) := by congr 1; omega
        _ ≤ n := two_pow_bitLen_pred_le n hn0
    rcases roundAt_shape n (bitLen n - 53) with hs | hs
    · rw [hrf, hs]
      exact roundFloat_mul_pow_eq_self _ _ he1 hq_lo (le_of_lt hq_hi)
    · rw [hrf, hs]
      exact roundFloat_mul_pow_eq_self _ _ he1 (by omega) (by omega)

theorem pyIntFloat_output (n m : Nat) (h : pyIntFloat n = some m) :
    pyIntFloat m = some m := by
  unfold pyIntFloat at h ⊢
  by_cases hov : 2 ^ 1024 ≤ roundFloat n
  · rw [if_pos hov] at h
    exact Option.noConfusion h
  · rw [if_neg hov] at h
    have hm : m = roundFloat n := (Option.some_inj.mp h).symm
    subst hm
    rw [roundFloat_idem, if_neg hov]

theorem matches_ne_empty (sx : String) (h : matchesIntOptZeros sx.data = true) :
    sx ≠ "" := by
  intro e
  subst e
  exact absurd h (by decide)

theorem matches_head_digit (sx : String) (h : matchesIntOptZeros sx.data = true) :
    ∃ c t, sx.data = c :: t ∧ pyDigitChar c = true := by
  cases hd : sx.data with
  | nil =>
    rw [hd] at h
    exact absurd h (by decide)
  | cons c t =>
    refine ⟨c, t, rfl, ?_⟩
    rw [hd] at h
    cases hpc : pyDigitChar c
    · simp [matchesIntOptZeros, List.takeWhile_cons, hpc] at h
    · rfl

theorem matches_ne_nan (sx : String) (h : matchesIntOptZeros sx.data = true) :
    pyLower sx ≠ "nan" := by
  intro hn
  obtain ⟨c, t, hd, hc⟩ := matches_head_digit sx h
  have hmap : sx.data.map lowerChar = ['n', 'a', 'n'] := by
    simpa using congrArg String.data hn
  rw [hd, List.map_cons] at hmap
  injection hmap with h1 h2
  rw [lowerChar_of_pyDigit c hc] at h1
  subst h1
  exact absurd hc (by decide)

theorem norm_custseq_natStr (m : Nat) (hm : pyIntFloat m = some m) :
    norm_custseq (some (natStr m)) = natStr m := by
  have hall := natStr_data_all_digits m
  have hallu : ∀ c ∈ (natStr m).data, pyDigitChar c = true :=
    fun c hc => pyDigitChar_of_ascii c (hall c hc)
  have hne := natStr_data_ne_nil m
  have hstrip : pyStrip (natStr m) = natStr m := by
    unfold pyStrip
    rw [stripList_of_no_space _ (fun c hc => isSpaceChar_eq_false_of_digit c (hall c hc))]
  have hne' : ¬(natStr m = "") := by
    intro h
    exact hne (by simpa using congrArg String.data h)
  have hlow : pyLower (natStr m) = natStr m := by
    unfold pyLower
    rw [List.map_congr_left (fun c hc => lowerChar_of_digit c (hall c hc)), List.map_id']
  have hnan : ¬(pyLower (natStr m) = "nan") := by
    rw [hlow]
    intro h
    have hd : (natStr m).data = ['n', 'a', 'n'] := by simpa using congrArg String.data h
    have : isAsciiDigit 'n' = true := hall 'n' (by rw [hd]; simp)
    exact absurd this (by decide)
  have htake : (natStr m).data.takeWhile pyDigitChar = (natStr m).data :=
    List.takeWhile_eq_self_iff.mpr (fun c hc => hallu c hc)
  have hdropd : (natStr m).data.dropWhile pyDigitChar = [] :=
    List.dropWhile_eq_nil_iff.mpr (fun c hc => hallu c hc)
  have hie : (natStr m).data.isEmpty = false := by
    cases hd : (natStr m).data with
    | nil => exact absurd hd hne
    | cons a t => rfl
  have hmatch : matchesIntOptZeros (natStr m).data = true := by
    unfold matchesIntOptZeros
    rw [htake, hdropd, hie]
    rfl
  simp only [norm_custseq]
  rw [hstrip, if_neg hne', if_neg hnan, if_pos hmatch, htake, digitsVal_natStr, hm]

theorem norm_custseq_pass (s : String) (h1 : pyStrip s ≠ "")
    (h2 : pyLower (pyStrip s) ≠ "nan")
    (h3 : matchesIntOptZeros (pyStrip s).data = false) :
    norm_custseq (some s) = pyStrip s := by
  simp only [norm_custseq]
  rw [if_neg h1, if_neg h2, if_neg (by simp [h3])]

theorem norm_custseq_idem (x : Option String) :
    norm_custseq (some (norm_custseq x)) = norm_custseq x := by
  match x with
  | none => decide
  | some s =>
    by_cases h1 : pyStrip s = ""
    · have h : norm_custseq (some s) = "NA" := by
        simp only [norm_custseq]; rw [if_pos h1]
      rw [h]; decide
    · by_cases h2 : pyLower (pyStrip s) = "nan"
      · have h : norm_custseq (some s) = "NA" := by
          simp only [norm_custseq]; rw [if_neg h1, if_pos h2]
        rw [h]; decide
      · by_cases h3 : matchesIntOptZeros (pyStrip s).data = true
        · cases hio : pyIntFloat (digitsVal ((pyStrip s).data.takeWhile pyDigitChar)) with
          | none =>
            have h : norm_custseq (some s) = "NA" := by
              simp only [norm_custseq]
              rw [if_neg h1, if_neg h2, if_pos h3, hio]
            rw [h]
            decide
          | some m =>
            have h : norm_custseq (some s) = natStr m := by
              simp only [norm_custseq]
              rw [if_neg h1, if_neg h2, if_pos h3, hio]
            rw [h, norm_custseq_natStr m (pyIntFloat_output _ m hio)]
        · have h3f : matchesIntOptZeros (pyStrip s).data = false := by
            cases hm : matchesIntOptZeros (pyStrip s).data with
            | false => rfl
            | true => exact absurd hm h3
          have h : norm_custseq (some s) = pyStrip s := norm_custseq_pass s h1 h2 h3f
          rw [h]
          have e := pyStrip_pyStrip s
          exact (norm_custseq_pass (pyStrip s) (by rw [e]; exact h1) (by rw [e]; exact h2)
            (by rw [e]; exact h3f)).trans e

set_option maxRecDepth 8192 in
set_option maxHeartbeats 1000000 in
/-- C2 counterexample: the claim fails on the program.  The plain integer
text 9007199254740993 (2 to the 53 plus 1) is mapped by str(int(float(sx)))
to 9007199254740992, not to its own plain integer string; the 401-digit
integer text given by natStr of 10 to the 400 is mapped to NA, because
float() returns infinity there and int() raises OverflowError, caught by the
bare except; and the Arabic-Indic digit text of value 123 is canonicalized to
123 rather than passed through trimmed, because the backslash-d class of
Python re matches all Unicode decimal digits. -/
theorem C2_norm_custseq_counterexample :
    norm_custseq (some "9007199254740993") = "9007199254740992" ∧
    norm_custseq (some (natStr (10 ^ 400))) = "NA" ∧
    norm_custseq (some "١٢٣") = "123" ∧
    pyStrip "١٢٣" ≠ "123" := by
  exact ⟨by decide, by decide, by decide, by decide⟩

set_option maxRecDepth 8192 in
set_option maxHeartbeats 1000000 in
/-- C2 amended: the normalizer maps text matching an integer (Unicode decimal
digits) optionally followed by a dot and zeros to the decimal string of the
value rounded by the float round-trip - the plain integer string itself
whenever the value is exactly representable, below 2 to the 53 - and to NA
when int(float(sx)) overflows; maps empty, whitespace-only and the literal
text nan (case-insensitively, and the pandas missing value) to the sentinel
NA; passes anything not matching through trimmed; and is idempotent:
normalizing an already-normalized key returns the same key. -/
theorem C2_norm_custseq_amended :
    norm_custseq (some "123.00") = "123" ∧
    norm_custseq (some "123") = "123" ∧
    norm_custseq (some "") = "NA" ∧
    norm_custseq (some "  ") = "NA" ∧
    norm_custseq (some "nan") = "NA" ∧
    norm_custseq none = "NA" ∧
    (∀ s : String, matchesIntOptZeros (pyStrip s).data = true →
      digitsVal ((pyStrip s).data.takeWhile pyDigitChar) < 2 ^ 53 →
      norm_custseq (some s) =
        natStr (digitsVal ((pyStrip s).data.takeWhile pyDigitChar))) ∧
    (∀ s : String, matchesIntOptZeros (pyStrip s).data = true →
      2 ^ 1024 ≤ roundFloat (digitsVal ((pyStrip s).data.takeWhile pyDigitChar)) →
      norm_custseq (some s) = "NA") ∧
    (∀ s : String, pyStrip s ≠ "" → pyLower (pyStrip s) ≠ "nan" →
      matchesIntOptZeros (pyStrip s).data = false → norm_custseq (some s) = pyStrip s) ∧
    (∀ x : Option String, norm_custseq (some (norm_custseq x)) = norm_custseq x) := by
  refine ⟨by decide, by decide, by decide, by decide, by decide, by decide, ?_, ?_, ?_, ?_⟩
  · intro s hm hlt
    have hio : pyIntFloat (digitsVal ((pyStrip s).data.takeWhile pyDigitChar))
        = some (digitsVal ((pyStrip s).data.takeWhile pyDigitChar)) := by
      unfold pyIntFloat
      rw [roundFloat_small _ hlt]
      have hno : ¬ 2 ^ 1024 ≤ digitsVal ((pyStrip s).data.takeWhile pyDigitChar) := by
        have hle : (2:Nat) ^ 53 ≤ 2 ^ 1024 := Nat.pow_le_pow_right (by omega) (by omega)
        omega
      rw [if_neg hno]
    simp only [norm_custseq]
    rw [if_neg (matches_ne_empty _ hm), if_neg (matches_ne_nan _ hm), if_pos hm, hio]
  · intro s hm hov
    have hio : pyIntFloat (digitsVal ((pyStrip s).data.takeWhile pyDigitChar)) = none := by
      unfold pyIntFloat
      rw [if_pos hov]
    simp only [norm_custseq]
    rw [if_neg (matches_ne_empty _ hm), if_neg (matches_ne_nan _ hm), if_pos hm, hio]
  · exact norm_custseq_pass
  · exact norm_custseq_idem

/-- Witness for C2 at a concrete input: 00123 matches the numeric pattern,
its value 123 is exactly representable, and normalization canonicalizes it to
the plain integer string. -/
theorem C2_norm_custseq_amended_witness :
    norm_custseq (some "00123") =
      natStr (digitsVal ((pyStrip "00123").data.takeWhile pyDigitChar)) :=
  C2_norm_custseq_amended.2.2.2.2.2.2.1 "00123" (by decide) (by decide)

/-! ## Branch/SOL code validation (error_utils.validate_sol_only) -/

/-- Fragment of Python str.isdigit: that predicate holds of every character of
Unicode Numeric_Type Decimal or Digit, which besides the ASCII digits includes
among others the superscript digits one, two and three (U+00B9, U+00B2,
U+00B3).  The embedding covers the ASCII digits and these three superscripts,
which suffice for the inputs analyzed here. -/
def pyIsDigit (c : Char) : Bool :=
  isAsciiDigit c || c == '¹' || c == '²' || c == '³'

/-- validate_sol_only of error_utils.py, lines 72-92.  The argument none
embeds Python None; the result embeds either the returned stripped code or
the message of the raised UserFacingError (the ValidationError of the spec). -/
def validate_sol_only (raw : Option String) (solLength : Nat := 4) : Except String String :=
  match raw with
  | none => Except.error "Vui lòng nhập mã SOL."
  | some r =>
    let s := pyStrip r
    if s = "" then Except.error "Vui lòng nhập mã SOL (ví dụ: 0001)."
    else if s.data.all pyIsDigit = false then Except.error "Mã SOL chỉ được chứa chữ số (0–9)."
    else if s.data.length ≠ solLength then
      Except.error ("Mã SOL phải gồm đúng " ++ natStr solLength ++ " chữ số (ví dụ: 0001).")
    else Except.ok s

/-- C7 counterexample: the code accepts a string of four superscript-two
characters, which Python str.isdigit counts as digits although they are not
ASCII digits, so acceptance is not limited to 4 ASCII digits. -/
theorem C7_validate_sol_counterexample :
    validate_sol_only (some "²²²²") = Except.ok "²²²²" ∧
    "²²²²".data.all isAsciiDigit = false :=
  ⟨rfl, by decide⟩

/-- C7 amended: validation accepts exactly the inputs that are, after
trimming, exactly 4 characters accepted by Python str.isdigit (a superset of
the ASCII digits), returning the trimmed code, and fails with an error
carrying a nonempty human-readable reason on every other input; all the
examples of the claim behave as stated. -/
theorem C7_validate_sol_amended :
    (∀ s : String,
      (validate_sol_only (some s) = Except.ok (pyStrip s) ↔
        (pyStrip s).data.length = 4 ∧ (pyStrip s).data.all pyIsDigit = true) ∧
      ((∃ t, validate_sol_only (some s) = Except.ok t) ∨
        (∃ m, validate_sol_only (some s) = Except.error m ∧ m ≠ ""))) ∧
    validate_sol_only (some "1000") = Except.ok "1000" ∧
    (validate_sol_only (some "100")).toOption = none ∧
    (validate_sol_only (some "10000")).toOption = none ∧
    (validate_sol_only (some "10A0")).toOption = none ∧
    (validate_sol_only (some "")).toOption = none ∧
    (validate_sol_only (some "  ")).toOption = none ∧
    (validate_sol_only (some "abcd")).toOption = none := by
  constructor
  · intro s
    constructor
    · by_cases h1 : pyStrip s = ""
      · simp only [validate_sol_only, if_pos h1]
        constructor
        · intro h; exact Except.noConfusion h
        · rintro ⟨hl, -⟩
          rw [h1] at hl
          exact absurd hl (by decide)
      · by_cases h2 : (pyStrip s).data.all pyIsDigit = false
        · simp only [validate_sol_only, if_neg h1, if_pos h2]
          constructor
          · intro h; exact Except.noConfusion h
          · rintro ⟨-, ha⟩
            rw [ha] at h2
            exact Bool.noConfusion h2
        · have h2t : (pyStrip s).data.all pyIsDigit = true := by
            cases hx : (pyStrip s).data.all pyIsDigit
            · exact absurd hx h2
            · rfl
          by_cases h3 : (pyStrip s).data.length ≠ 4
          · simp only [validate_sol_only, if_neg h1, if_neg h2, if_pos h3]
            constructor
            · intro h; exact Except.noConfusion h
            · rintro ⟨hl, -⟩; exact absurd hl h3
          · simp only [validate_sol_only, if_neg h1, if_neg h2, if_neg h3]
            exact iff_of_true trivial ⟨not_not.mp h3, h2t⟩
    · by_cases h1 : pyStrip s = ""
      · right
        refine ⟨"Vui lòng nhập mã SOL (ví dụ: 0001).", ?_, by decide⟩
        simp only [validate_sol_only, if_pos h1]
      · by_cases h2 : (pyStrip s).data.all pyIsDigit = false
        · right
          refine ⟨"Mã SOL chỉ được chứa chữ số (0–9).", ?_, by decide⟩
          simp only [validate_sol_only, if_neg h1, if_pos h2]
        · by_cases h3 : (pyStrip s).data.length ≠ 4
          · right
            refine ⟨"Mã SOL phải gồm đúng " ++ natStr 4 ++ " chữ số (ví dụ: 0001).", ?_, by decide⟩
            simp only [validate_sol_only, if_neg h1, if_neg h2, if_pos h3]
          · left
            refine ⟨pyStrip s, ?_⟩
            simp only [validate_sol_only, if_neg h1, if_neg h2, if_neg h3]
  · exact ⟨rfl, by decide, by decide, by decide, by decide, by decide, by decide⟩

/-! ## Required-column check (error_utils.require_columns and
ensure_required_columns) -/

/-- Column-name normalization col.strip().upper() applied on both sides by
require_columns of error_utils.py (and by normalize_columns). -/
def normColName (s : String) : String := pyUpper (pyStrip s)

/-- require_columns of error_utils.py, lines 32-36: the sorted list of
normalized required column names absent from the normalized existing columns
(Python sorted(required_set - existing)). -/
def require_columns (dfColumns required : List String) : List String :=
  List.insertionSort (fun a b => a ≤ b)
    (((required.map normColName).filter
        (fun c => decide (c ∉ dfColumns.map normColName))).dedup)

/-- Comma-space join used in the raised message (Python str.join). -/
def joinComma : List String → String
  | [] => ""
  | [c] => c
  | c :: d :: t => c ++ ", " ++ joinComma (d :: t)

/-- ensure_required_columns of error_utils.py, lines 39-43: ok when nothing
is missing, otherwise one UserFacingError (the SchemaError of the spec)
whose message joins every missing column name. -/
def ensure_required_columns (dfColumns required : List String) : Except String Unit :=
  if require_columns dfColumns required = [] then Except.ok ()
  else Except.error ("Tệp Excel thiếu các cột bắt buộc: "
    ++ joinComma (require_columns dfColumns required))

theorem infix_joinComma (c : String) :
    ∀ l : List String, c ∈ l → c.data <:+: (joinComma l).data := by
  intro l
  induction l with
  | nil => intro h; simp at h
  | cons a t ih =>
    intro h
    cases t with
    | nil =>
      have hca : c = a := by simpa using h
      subst hca
      exact List.infix_refl _
    | cons b u =>
      rcases List.mem_cons.mp h with hca | hcm
      · subst hca
        show c.data <:+: ((c ++ ", ") ++ joinComma (b :: u)).data
        rw [String.data_append, String.data_append]
        exact (((List.prefix_append c.data ", ".data)).trans
          (List.prefix_append _ (joinComma (b :: u)).data)).isInfix
      · rcases ih hcm with ⟨x, y, hxy⟩
        refine ⟨(a.data ++ ", ".data) ++ x, y, ?_⟩
        show (a.data ++ ", ".data ++ x) ++ c.data ++ y = ((a ++ ", ") ++ joinComma (b :: u)).data
        rw [String.data_append, String.data_append, ← hxy]
        simp [List.append_assoc]

/-- C9: the strict required-column check raises no error when every declared
column is present after normalization, and otherwise raises a single error
whose message contains every missing declared column name, never only the
first one. -/
theorem C9_required_columns_enumerated (dfColumns required : List String) :
    ((∀ c ∈ required, normColName c ∈ dfColumns.map normColName) →
      ensure_required_columns dfColumns required = Except.ok ()) ∧
    (∀ c ∈ required, normColName c ∉ dfColumns.map normColName →
      ∃ msg, ensure_required_columns dfColumns required = Except.error msg ∧
        (normColName c).data <:+: msg.data) := by
  constructor
  · intro hall
    have hf : (required.map normColName).filter
        (fun c => decide (c ∉ dfColumns.map normColName)) = [] := by
      rw [List.filter_eq_nil_iff]
      intro x hx
      rcases List.mem_map.mp hx with ⟨c, hc, rfl⟩
      simp [hall c hc]
    have hnil : require_columns dfColumns required = [] := by
      unfold require_columns
      rw [hf]
      rfl
    unfold ensure_required_columns
    rw [if_pos hnil]
  · intro c hc hnotin
    have hmem : normColName c ∈ require_columns dfColumns required := by
      unfold require_columns
      rw [List.mem_insertionSort, List.mem_dedup]
      exact List.mem_filter.mpr ⟨List.mem_map_of_mem _ hc, decide_eq_true hnotin⟩
    have hne : require_columns dfColumns required ≠ [] := by
      intro h; rw [h] at hmem; simp at hmem
    refine ⟨"Tệp Excel thiếu các cột bắt buộc: "
      ++ joinComma (require_columns dfColumns required), ?_, ?_⟩
    · unfold ensure_required_columns
      rw [if_neg hne]
    · rw [String.data_append]
      rcases infix_joinComma (normColName c) _ hmem with ⟨x, y, hxy⟩
      refine ⟨"Tệp Excel thiếu các cột bắt buộc: ".data ++ x, y, ?_⟩
      rw [← hxy]
      simp [List.append_assoc]

/-- Witness for C9 at a concrete table: with existing column A and required
columns A, B, C, the raised message contains the missing column B. -/
theorem C9_required_columns_enumerated_witness :
    ∃ msg, ensure_required_columns ["A"] ["A", "B", "C"] = Except.error msg ∧
      (normColName "B").data <:+: msg.data :=
  (C9_required_columns_enumerated ["A"] ["A", "B", "C"]).2 "B" (by decide) (by decide)

/-! ## Reconciliation Engine: left joins on string keys -/

/-- Output rows a single left row contributes, given the right rows matching
its key: one row per match, or one row with a missing right side. -/
def joinRow {α β : Type} (a : α) (ms : List β) : List (α × Option β) :=
  match ms with
  | [] => [(a, none)]
  | b :: bs => (b :: bs).map fun m => (a, some m)

/-- Pandas left merge (DataFrame.merge, how left) of a left table against a
right lookup table on string keys: left rows are kept in order, each
contributing one output row per matching right row, or a single row with a
missing right side when nothing matches. -/
def leftJoin {α β : Type} (L : List α) (R : List β)
    (kl : α → String) (kr : β → String) : List (α × Option β) :=
  L.flatMap fun a => joinRow a (R.filter fun b => kr b == kl a)

/-- Pandas DataFrame.drop_duplicates on a key column with keep first: the
first row carrying each key survives, in order; later rows with an already
seen key are discarded. -/
def dropDupFirst {β : Type} (key : β → String) : List β → List β
  | [] => []
  | b :: t => b :: dropDupFirst key (t.filter fun c => key c != key b)
termination_by l => l.length
decreasing_by
  simp only [List.length_cons]
  exact Nat.lt_succ_of_le (List.length_filter_le _ _)

theorem mem_of_mem_dropDupFirst {β : Type} (key : β → String) :
    ∀ (l : List β) (x : β), x ∈ dropDupFirst key l → x ∈ l := by
  intro l
  induction l using dropDupFirst.induct key with
  | case1 => intro x hx; simp [dropDupFirst] at hx
  | case2 b t ih =>
    intro x hx
    rw [dropDupFirst] at hx
    rcases List.mem_cons.mp hx with rfl | hx
    · exact List.mem_cons_self _ _
    · exact List.mem_cons_of_mem _ (List.mem_of_mem_filter (ih x hx))

theorem dropDupFirst_pairwise {β : Type} (key : β → String) :
    ∀ l : List β, (dropDupFirst key l).Pairwise (fun a b => key a ≠ key b) := by
  intro l
  induction l using dropDupFirst.induct key with
  | case1 => simp [dropDupFirst]
  | case2 b t ih =>
    rw [dropDupFirst]
    refine List.Pairwise.cons ?_ ih
    intro c hc
    have hc2 := List.mem_filter.mp (mem_of_mem_dropDupFirst key _ c hc)
    have := hc2.2
    simp only [bne_iff_ne, ne_eq] at this
    exact fun e => this e.symm

theorem filter_key_length_le_one {β : Type} (key : β → String) (k : String)
    (l : List β) (h : l.Pairwise (fun a b => key a ≠ key b)) :
    (l.filter fun b => key b == k).length ≤ 1 := by
  induction l with
  | nil => simp
  | cons b t ih =>
    rcases List.pairwise_cons.mp h with ⟨hb, ht⟩
    rw [List.filter_cons]
    by_cases hk : (key b == k) = true
    · rw [if_pos hk]
      have hnil : (t.filter fun b => key b == k) = [] := by
        rw [List.filter_eq_nil_iff]
        intro c hc hck
        exact hb c hc (by rw [eq_of_beq hk, eq_of_beq hck])
      rw [hnil]
      simp
    · rw [if_neg hk]
      exact ih ht

theorem joinRow_length {α β : Type} (a : α) (ms : List β) (h : ms.length ≤ 1) :
    (joinRow a ms).length = 1 := by
  match ms with
  | [] => rfl
  | [b] => rfl
  | b :: c :: cs => simp at h

theorem leftJoin_length_of_pairwise {α β : Type} (L : List α) (R : List β)
    (kl : α → String) (kr : β → String)
    (h : R.Pairwise (fun a b => kr a ≠ kr b)) :
    (leftJoin L R kl kr).length = L.length := by
  induction L with
  | nil => rfl
  | cons a t ih =>
    have hcons : leftJoin (a :: t) R kl kr
        = joinRow a (R.filter fun b => kr b == kl a) ++ leftJoin t R kl kr := rfl
    rw [hcons, List.length_append, ih,
      joinRow_length a _ (filter_key_length_le_one kr (kl a) R h), List.length_cons]
    omega

/-! ## The concrete join steps of the DVKH module -/

/-- Row of the authorization table df_a of process_uyquyen_sms_scm, reduced
to the column driving the CUSTSEQ join. -/
structure UqARow where
  tkDuocUyQuyen : String
deriving DecidableEq

/-- Row of the deposit table df_b (CKH and KKH union), reduced to the columns
IDXACNO and CUSTSEQ selected by the join of DVKH.py line 237. -/
structure DepositRow where
  idxacno : String
  custseq : String
deriving DecidableEq

/-- The CUSTSEQ join step of process_uyquyen_sms_scm, DVKH.py lines 234-237:
merged = df_a.merge(df_b[[IDXACNO, CUSTSEQ]], left_on TK_DUOC_UY_QUYEN,
right_on IDXACNO, how left).  The right-hand table is used as is, with no
drop_duplicates on IDXACNO. -/
def merge_custseq_step (dfa : List UqARow) (dfb : List DepositRow) :
    List (UqARow × Option String) :=
  (leftJoin dfa dfb (fun a => a.tkDuocUyQuyen) (fun b => b.idxacno)).map
    fun p => (p.1, p.2.map fun b => b.custseq)

/-- Row of the deposit-detail table df_42a of process_tieuchi_4_5, reduced to
its join keys. -/
structure Cust42aRow where
  custseq : String
  idxacno : String
deriving DecidableEq

/-- Row of the charge-level table df_42b of process_tieuchi_4_5. -/
structure ChargeRow where
  macif : String
  stkkh : String
  chargeLevelCif : String
  chargeLevelTk : String
deriving DecidableEq

/-- The CIF charge-level join step of process_tieuchi_4_5, DVKH.py lines
460-465: df_42b.drop_duplicates(MACIF) first, then left-merge on
CUSTSEQ = MACIF. -/
def merge_chargelevel_cif_step (dfa : List Cust42aRow) (dfb : List ChargeRow) :
    List (Cust42aRow × Option String) :=
  (leftJoin dfa (dropDupFirst (fun b => b.macif) dfb)
      (fun a => a.custseq) (fun b => b.macif)).map
    fun p => (p.1, p.2.map fun b => b.chargeLevelCif)

/-- The account charge-level join step of process_tieuchi_4_5, DVKH.py lines
473-477: df_42b.drop_duplicates(STKKH) first, then left-merge on
IDXACNO = STKKH. -/
def merge_chargelevel_tk_step (dfa : List Cust42aRow) (dfb : List ChargeRow) :
    List (Cust42aRow × Option String) :=
  (leftJoin dfa (dropDupFirst (fun b => b.stkkh) dfb)
      (fun a => a.idxacno) (fun b => b.stkkh)).map
    fun p => (p.1, p.2.map fun b => b.chargeLevelTk)

/-- C1 counterexample: the CUSTSEQ join step of process_uyquyen_sms_scm
(DVKH.py line 237) does not deduplicate its right-hand table, so a left table
of one row joined against a lookup table with two rows sharing the key yields
two rows, not one. -/
theorem C1_join_rowcount_counterexample :
    (merge_custseq_step [⟨"6001"⟩]
      [⟨"6001", "111"⟩, ⟨"6001", "222"⟩]).length = 2 ∧
    ([⟨"6001"⟩] : List UqARow).length = 1 :=
  ⟨rfl, rfl⟩

/-- C1 amended: whenever the right-hand lookup table is first deduplicated on
its join column keeping the first occurrence - as the charge-level join steps
of process_tieuchi_4_5 do - the left join preserves the left row count for
any inputs, regardless of duplicate keys in the lookup table before dedup;
but not every join step deduplicates: the CUSTSEQ join step of
process_uyquyen_sms_scm joins its right table as is and can yield more rows
than the left table. -/
theorem C1_join_dedup_rowcount :
    (∀ (α β : Type) (L : List α) (R : List β) (kl : α → String) (kr : β → String),
      (leftJoin L (dropDupFirst kr R) kl kr).length = L.length) ∧
    (∀ (dfa : List Cust42aRow) (dfb : List ChargeRow),
      (merge_chargelevel_cif_step dfa dfb).length = dfa.length) ∧
    (∀ (dfa : List Cust42aRow) (dfb : List ChargeRow),
      (merge_chargelevel_tk_step dfa dfb).length = dfa.length) ∧
    (∃ (dfa : List UqARow) (dfb : List DepositRow),
      (merge_custseq_step dfa dfb).length ≠ dfa.length) := by
  have hgen : ∀ (α β : Type) (L : List α) (R : List β)
      (kl : α → String) (kr : β → String),
      (leftJoin L (dropDupFirst kr R) kl kr).length = L.length := by
    intro α β L R kl kr
    exact leftJoin_length_of_pairwise L _ kl kr (dropDupFirst_pairwise kr R)
  refine ⟨hgen, ?_, ?_, ?_⟩
  · intro dfa dfb
    unfold merge_chargelevel_cif_step
    rw [List.length_map]
    exact hgen _ _ dfa dfb _ _
  · intro dfa dfb
    unfold merge_chargelevel_tk_step
    rw [List.length_map]
    exact hgen _ _ dfa dfb _ _
  · exact ⟨[⟨"6001"⟩], [⟨"6001", "111"⟩, ⟨"6001", "222"⟩], by decide⟩

/-! ## Group-wise CIF fallback fill (DVKH.py lines 259-270) -/

/-- Row of the merged authorization table at the fallback-fill step: the
grouping column NGUOI_UY_QUYEN, the filled column CIF_NGUOI_UY_QUYEN, and a
placeholder of arbitrary type standing for every other column of the row. -/
structure UqMergedRow (ρ : Type) where
  nguoiUyQuyen : String
  cif : String
  rest : ρ
deriving DecidableEq

/-- The pandas group of a grantor name: the rows of the table carrying that
name, in table order (merged.groupby NGUOI_UY_QUYEN). -/
def group_of {ρ : Type} (rows : List (UqMergedRow ρ)) (name : String) :
    List (UqMergedRow ρ) :=
  rows.filter fun r => r.nguoiUyQuyen == name

/-- First resolved CIF value of a group: the Python code takes the unique
values in order of first appearance, keeps the non-NA ones and picks the
first, which is the first non-NA value in group order. -/
def first_actual {ρ : Type} (g : List (UqMergedRow ρ)) : Option String :=
  ((g.map fun r => r.cif).filter fun v => v != "NA").head?

/-- Per-row effect of the fallback-fill loop of DVKH.py lines 259-270: the
loop walks the groups of at least two rows, and when a group holds at least
one resolved value overwrites the NA cells of that group with its first
resolved value.  Groups partition the table and each assignment only depends
on the row's own group, so the loop is row-wise. -/
def fill_cif_row {ρ : Type} (rows : List (UqMergedRow ρ)) (r : UqMergedRow ρ) :
    UqMergedRow ρ :=
  if 2 ≤ (group_of rows r.nguoiUyQuyen).length ∧ r.cif = "NA" then
    match first_actual (group_of rows r.nguoiUyQuyen) with
    | some v => { r with cif := v }
    | none => r
  else r

/-- The whole fallback fill: cif_updated written back as the new
CIF_NGUOI_UY_QUYEN column (DVKH.py line 270). -/
def fill_cif {ρ : Type} (rows : List (UqMergedRow ρ)) : List (UqMergedRow ρ) :=
  rows.map (fill_cif_row rows)

theorem length_group_ge_two {ρ : Type} (rows : List (UqMergedRow ρ))
    (r s : UqMergedRow ρ) (hr : r ∈ rows) (hs : s ∈ group_of rows r.nguoiUyQuyen)
    (hrc : r.cif = "NA") (hsc : s.cif ≠ "NA") :
    2 ≤ (group_of rows r.nguoiUyQuyen).length := by
  have hrg : r ∈ group_of rows r.nguoiUyQuyen :=
    List.mem_filter.mpr ⟨hr, by simp⟩
  have hne : s ≠ r := fun e => hsc (by rw [e, hrc])
  rcases List.append_of_mem hrg with ⟨l1, l2, hg⟩
  rw [hg] at hs ⊢
  rcases List.mem_append.mp hs with h1 | h2
  · have := List.length_pos_of_mem h1
    simp only [List.length_append, List.length_cons]
    omega
  · have h2' : s ∈ l2 := by
      rcases List.mem_cons.mp h2 with e | h
      · exact absurd e hne
      · exact h
    have := List.length_pos_of_mem h2'
    simp only [List.length_append, List.length_cons]
    omega

/-- C3: within every grantor-name group that has at least one resolved CIF
and at least one NA sentinel, the fallback fill writes the first resolved
value of the group into every NA row of the group; a group whose rows are all
NA is left entirely NA; and the fill is the row-wise map of the per-row
update. -/
theorem C3_group_fallback_fill (ρ : Type) (rows : List (UqMergedRow ρ)) :
    (∀ r ∈ rows, r.cif = "NA" →
      (∃ s ∈ group_of rows r.nguoiUyQuyen, s.cif ≠ "NA") →
      ∃ v, first_actual (group_of rows r.nguoiUyQuyen) = some v ∧ v ≠ "NA" ∧
        (fill_cif_row rows r).cif = v) ∧
    (∀ r ∈ rows, (∀ s ∈ group_of rows r.nguoiUyQuyen, s.cif = "NA") →
      (fill_cif_row rows r).cif = "NA") ∧
    fill_cif rows = rows.map (fill_cif_row rows) := by
  refine ⟨?_, ?_, rfl⟩
  · intro r hr hrc ⟨s, hs, hsc⟩
    have hlen := length_group_ge_two rows r s hr hs hrc hsc
    have hfne : ((group_of rows r.nguoiUyQuyen).map fun t => t.cif).filter
        (fun v => v != "NA") ≠ [] := by
      intro hnil
      rw [List.filter_eq_nil_iff] at hnil
      exact hnil s.cif (List.mem_map_of_mem _ hs) (by simpa using hsc)
    rcases hv : ((group_of rows r.nguoiUyQuyen).map fun t => t.cif).filter
        (fun v => v != "NA") with _ | ⟨v, vs⟩
    · exact absurd hv hfne
    · refine ⟨v, ?_, ?_, ?_⟩
      · unfold first_actual
        rw [hv]
        rfl
      · have hvm : v ∈ ((group_of rows r.nguoiUyQuyen).map fun t => t.cif).filter
            (fun v => v != "NA") := by rw [hv]; exact List.mem_cons_self _ _
        have := (List.mem_filter.mp hvm).2
        simpa using this
      · have hfa : first_actual (group_of rows r.nguoiUyQuyen) = some v := by
          unfold first_actual
          rw [hv]
          rfl
        simp only [fill_cif_row, if_pos (And.intro hlen hrc), hfa]
  · intro r hr hall
    have hfa : first_actual (group_of rows r.nguoiUyQuyen) = none := by
      unfold first_actual
      have : ((group_of rows r.nguoiUyQuyen).map fun t => t.cif).filter
          (fun v => v != "NA") = [] := by
        rw [List.filter_eq_nil_iff]
        intro x hx
        rcases List.mem_map.mp hx with ⟨t, ht, rfl⟩
        simp [hall t ht]
      rw [this]
      rfl
    by_cases hc : 2 ≤ (group_of rows r.nguoiUyQuyen).length ∧ r.cif = "NA"
    · simp only [fill_cif_row, if_pos hc, hfa]
      exact hc.2
    · simp only [fill_cif_row, if_neg hc]
      have hrg : r ∈ group_of rows r.nguoiUyQuyen :=
        List.mem_filter.mpr ⟨hr, by simp⟩
      exact hall r hrg

/-- Witness for C3 at the three-row example of the spec: a group with
resolved value 555 and two NA rows propagates 555 into the NA rows. -/
theorem C3_group_fallback_fill_witness :
    ∃ v, first_actual (group_of
        [⟨"N", "555", ()⟩, ⟨"N", "NA", ()⟩, ⟨"N", "NA", ()⟩]
        (UqMergedRow.nguoiUyQuyen (⟨"N", "NA", ()⟩ : UqMergedRow Unit))) = some v ∧
      v ≠ "NA" ∧
      (fill_cif_row [⟨"N", "555", ()⟩, ⟨"N", "NA", ()⟩, ⟨"N", "NA", ()⟩]
        (⟨"N", "NA", ()⟩ : UqMergedRow Unit)).cif = v :=
  (C3_group_fallback_fill Unit
      [⟨"N", "555", ()⟩, ⟨"N", "NA", ()⟩, ⟨"N", "NA", ()⟩]).1
    ⟨"N", "NA", ()⟩ (by decide) rfl ⟨⟨"N", "555", ()⟩, by decide, by decide⟩

/-- C10: the fallback fill keeps the row count and row order (it is the
row-wise map of the per-row update at the corresponding index), never touches
any column other than the CIF column, and keeps every already resolved CIF
value unchanged. -/
theorem C10_fill_cif_frame (ρ : Type) (rows : List (UqMergedRow ρ)) :
    (fill_cif rows).length = rows.length ∧
    (∀ i : Fin rows.length,
      (fill_cif rows)[(i : Nat)]? = some (fill_cif_row rows (rows.get i))) ∧
    (∀ r : UqMergedRow ρ,
      (fill_cif_row rows r).nguoiUyQuyen = r.nguoiUyQuyen ∧
      (fill_cif_row rows r).rest = r.rest ∧
      (r.cif ≠ "NA" → (fill_cif_row rows r).cif = r.cif)) := by
  refine ⟨by simp [fill_cif], ?_, ?_⟩
  · intro i
    unfold fill_cif
    rw [List.getElem?_map, List.getElem?_eq_getElem i.isLt]
    simp
  · intro r
    by_cases hc : 2 ≤ (group_of rows r.nguoiUyQuyen).length ∧ r.cif = "NA"
    · cases hfa : first_actual (group_of rows r.nguoiUyQuyen) with
      | none =>
        refine ⟨?_, ?_, fun _ => ?_⟩ <;>
          simp only [fill_cif_row, if_pos hc, hfa]
      | some v =>
        refine ⟨?_, ?_, fun hne => absurd hc.2 hne⟩ <;>
          simp only [fill_cif_row, if_pos hc, hfa]
    · refine ⟨?_, ?_, fun _ => ?_⟩ <;> simp only [fill_cif_row, if_neg hc]

/-- Witness for C10 at a concrete table: a row whose CIF is already resolved
keeps its value through the fill. -/
theorem C10_fill_cif_frame_witness :
    (fill_cif_row [⟨"N", "555", ()⟩, ⟨"N", "NA", ()⟩]
      (⟨"N", "555", ()⟩ : UqMergedRow Unit)).cif = "555" :=
  ((C10_fill_cif_frame Unit [⟨"N", "555", ()⟩, ⟨"N", "NA", ()⟩]).2.2
    ⟨"N", "555", ()⟩).2.2 (by decide)

/-! ## Rule Evaluator: date-delta threshold rules (hdv.py criterion 3 and
to_khai_hq.py) -/

/-- CHENH_LECH_NGAY of hdv.py line 496: whole-day difference between the
booking date NGAY_HACH_TOAN and the opening date ACCT_OPN_DATE; missing when
either date is missing (pandas NaT propagates to NaN). -/
def chenh_lech_ngay (ngayHachToan acctOpnDate : Option Int) : Option Int :=
  match ngayHachToan, acctOpnDate with
  | some a, some b => some (a - b)
  | _, _ => none

/-- MO_RUT_CUNG_NGAY of hdv.py line 498; a missing delta compares false in
pandas, so such rows stay unmarked. -/
def mo_rut_cung_ngay (d : Option Int) : String :=
  match d with
  | some x => if x = 0 then "X" else ""
  | none => ""

/-- MO_RUT_1_3_NGAY of hdv.py line 499. -/
def mo_rut_1_3_ngay (d : Option Int) : String :=
  match d with
  | some x => if 0 < x ∧ x ≤ 3 then "X" else ""
  | none => ""

/-- MO_RUT_4_7_NGAY of hdv.py line 500. -/
def mo_rut_4_7_ngay (d : Option Int) : String :=
  match d with
  | some x => if 4 ≤ x ∧ x ≤ 7 then "X" else ""
  | none => ""

/-- SO NGAY QUA HAN TKHQ of to_khai_hq.py lines 77-84: the overdue day count
(audit date minus declaration due date) is computed only when the due date is
present, the received date is missing and the difference is positive;
otherwise the cell stays empty (none). -/
def so_ngay_qua_han (auditDate : Int) (dueDate receivedDate : Option Int) : Option Int :=
  match dueDate, receivedDate with
  | some d, none => if 0 < auditDate - d then some (auditDate - d) else none
  | _, _ => none

/-- QUA HAN > 90 NGAY CHUA NHAP TKHQ of to_khai_hq.py lines 96-98: X when
the overdue day count is present and exceeds 90. -/
def qua_han_90 (auditDate : Int) (dueDate receivedDate : Option Int) : String :=
  match so_ngay_qua_han auditDate dueDate receivedDate with
  | some x => if 90 < x then "X" else ""
  | none => ""

/-- C4 counterexample: a customs row whose due date is 100 days before the
audit date (delta greater than 90) but whose received date is present is not
marked by the over-90-day rule, so the marker is not an iff in the delta
alone. -/
theorem C4_date_delta_counterexample :
    qua_han_90 100 (some 0) (some 50) = "" ∧ 90 < (100 : Int) - 0 :=
  ⟨rfl, by decide⟩

/-- C4 amended: the three withdrawal-delay rules mark X exactly at and inside
their declared boundaries as a function of the delta and never mark a row
missing either date; the over-90-day customs marker is X exactly when the due
date is present, the received date is missing, and the audit-due delta
exceeds 90 (delta 90 is not marked, delta 91 is). -/
theorem C4_date_delta_boundaries :
    (∀ a b : Int,
      (mo_rut_cung_ngay (chenh_lech_ngay (some a) (some b)) = "X" ↔ a - b = 0) ∧
      (mo_rut_1_3_ngay (chenh_lech_ngay (some a) (some b)) = "X" ↔
        0 < a - b ∧ a - b ≤ 3) ∧
      (mo_rut_4_7_ngay (chenh_lech_ngay (some a) (some b)) = "X" ↔
        4 ≤ a - b ∧ a - b ≤ 7)) ∧
    (∀ d : Option Int,
      mo_rut_cung_ngay (chenh_lech_ngay none d) = "" ∧
      mo_rut_cung_ngay (chenh_lech_ngay d none) = "" ∧
      mo_rut_1_3_ngay (chenh_lech_ngay none d) = "" ∧
      mo_rut_1_3_ngay (chenh_lech_ngay d none) = "" ∧
      mo_rut_4_7_ngay (chenh_lech_ngay none d) = "" ∧
      mo_rut_4_7_ngay (chenh_lech_ngay d none) = "") ∧
    (∀ (audit : Int) (due received : Option Int),
      qua_han_90 audit due received = "X" ↔
        ∃ d, due = some d ∧ received = none ∧ 90 < audit - d) ∧
    (mo_rut_cung_ngay (some 0) = "X" ∧ mo_rut_1_3_ngay (some 0) = "" ∧
      mo_rut_4_7_ngay (some 0) = "" ∧
      mo_rut_cung_ngay (some 3) = "" ∧ mo_rut_1_3_ngay (some 3) = "X" ∧
      mo_rut_4_7_ngay (some 3) = "" ∧
      mo_rut_1_3_ngay (some 4) = "" ∧ mo_rut_4_7_ngay (some 4) = "X" ∧
      mo_rut_4_7_ngay (some 7) = "X" ∧ mo_rut_4_7_ngay (some 8) = "" ∧
      qua_han_90 90 (some 0) none = "" ∧ qua_han_90 91 (some 0) none = "X") := by
  refine ⟨?_, ?_, ?_, ?_⟩
  · intro a b
    refine ⟨?_, ?_, ?_⟩
    · by_cases h : a - b = 0 <;> simp [mo_rut_cung_ngay, chenh_lech_ngay, h]
    · by_cases h : 0 < a - b ∧ a - b ≤ 3 <;>
        simp [mo_rut_1_3_ngay, chenh_lech_ngay, h]
    · by_cases h : 4 ≤ a - b ∧ a - b ≤ 7 <;>
        simp [mo_rut_4_7_ngay, chenh_lech_ngay, h]
  · intro d
    rcases d with - | x <;>
      exact ⟨rfl, rfl, rfl, rfl, rfl, rfl⟩
  · intro audit due received
    match due, received with
    | none, _ =>
      refine iff_of_false (by simp [qua_han_90, so_ngay_qua_han]) ?_
      rintro ⟨d, hd, -, -⟩
      exact Option.noConfusion hd
    | some d, some rcv =>
      refine iff_of_false (by simp [qua_han_90, so_ngay_qua_han]) ?_
      rintro ⟨d2, -, hr, -⟩
      exact Option.noConfusion hr
    | some d, none =>
      by_cases h90 : 90 < audit - d
      · have h0 : 0 < audit - d := by omega
        refine iff_of_true ?_ ⟨d, rfl, rfl, h90⟩
        simp only [qua_han_90, so_ngay_qua_han]
        rw [if_pos h0]
        show (if 90 < audit - d then "X" else "") = "X"
        rw [if_pos h90]
      · refine iff_of_false ?_ ?_
        · by_cases h0 : 0 < audit - d
          · simp only [qua_han_90, so_ngay_qua_han]
            rw [if_pos h0]
            show ¬(if 90 < audit - d then "X" else "") = "X"
            rw [if_neg h90]
            simp
          · simp only [qua_han_90, so_ngay_qua_han]
            rw [if_neg h0]
            simp
        · rintro ⟨d2, hd2, -, hgt⟩
          rw [Option.some_inj.mp hd2] at h90
          exact h90 hgt
  · refine ⟨rfl, rfl, rfl, ?_, ?_, ?_, ?_, ?_, ?_, ?_, ?_, ?_⟩ <;> decide

/-! ## Rule Evaluator: numeric-comparison rules (hdv.py criterion 1) -/

/-- Row of the enriched criterion-1 table after the to_numeric coercion of
hdv.py line 219-220: each rate column holds a parsed number, or none when the
cell text was empty or unparsable (pandas NaN). -/
structure HdvTc1Row where
  lsGhiso : Option ℚ
  lsCongBo : Option ℚ
  lsFtp : Option ℚ
  lsThucTra : Option ℚ
deriving DecidableEq

/-- The LSGS differs from LSCB marker of hdv.py lines 225-227: pandas
elementwise inequality after coercion; a NaN operand compares unequal to
everything, itself included, so rows with an unparsable operand are marked. -/
def lsgs_ne_lscb (r : HdvTc1Row) : String :=
  match r.lsGhiso, r.lsCongBo with
  | some x, some y => if x ≠ y then "X" else ""
  | _, _ => "X"

/-- The missing approved-rate marker of hdv.py lines 229-231. -/
def khong_co_ls_trinh_duyet (r : HdvTc1Row) : String :=
  if r.lsThucTra = none then "X" else ""

/-- The LSGS exceeds FTP marker of hdv.py lines 233-235: pandas greater-than
is false when either operand is NaN. -/
def lsgs_gt_ftp (r : HdvTc1Row) : String :=
  match r.lsGhiso, r.lsFtp with
  | some x, some y => if y < x then "X" else ""
  | _, _ => ""

/-- C5 counterexample: a row whose booked rate failed numeric parsing (NaN)
is marked X by the rate-differs rule, not treated as cannot-compare. -/
theorem C5_numeric_comparison_counterexample :
    lsgs_ne_lscb ⟨none, some 5, none, none⟩ = "X" ∧
    (⟨none, some 5, none, none⟩ : HdvTc1Row).lsGhiso = none :=
  ⟨rfl, rfl⟩

/-- C5 amended: the greater-than rule marks X exactly when both operands
parsed and compare greater, so an unparsable operand never marks it; but the
rate-differs rule leaves a row unmarked exactly when both operands parsed and
are equal, so a row with an unparsable operand is always marked by it (pandas
NaN compares unequal), never coerced to zero. -/
theorem C5_numeric_comparison_amended (r : HdvTc1Row) :
    (lsgs_gt_ftp r = "X" ↔
      ∃ x y, r.lsGhiso = some x ∧ r.lsFtp = some y ∧ y < x) ∧
    (lsgs_ne_lscb r = "" ↔
      ∃ x, r.lsGhiso = some x ∧ r.lsCongBo = some x) := by
  obtain ⟨g, c, f, t⟩ := r
  constructor
  · cases g with
    | none => simp [lsgs_gt_ftp]
    | some x =>
      cases f with
      | none => simp [lsgs_gt_ftp]
      | some y => by_cases h : y < x <;> simp [lsgs_gt_ftp, h]
  · cases g with
    | none => simp [lsgs_ne_lscb]
    | some x =>
      cases c with
      | none => simp [lsgs_ne_lscb]
      | some y =>
        by_cases h : x = y
        · subst h; simp [lsgs_ne_lscb]
        · simp [lsgs_ne_lscb, h, Ne.symm h]

/-! ## Rule Evaluator: ranking rule (hdv.py criterion 2) -/

/-- Row of the per-customer summary df_tonghop of hdv.py line 413: customer
type and summed balance (groupby CUSTSEQ sum of CURBAL_VN). -/
structure TonghopRow where
  custType : String
  soDu : ℚ
deriving DecidableEq

/-- RANK_RAW of hdv.py line 423: pandas groupby(CUST_TYPE) rank with method
min, descending: one plus the number of rows of the same customer type whose
summed balance is strictly larger. -/
def rank_raw (rows : List TonghopRow) (i : Fin rows.length) : Nat :=
  1 + (rows.filter fun s =>
    s.custType == (rows.get i).custType && decide ((rows.get i).soDu < s.soDu)).length

/-- The TOPn_t marker columns of hdv.py lines 425-430: X exactly when the row
has the given customer type and its min-rank is at most n (code instantiates
t over KHDN and KHCN and n over 10, 15 and 20). -/
def top_mark (rows : List TonghopRow) (i : Fin rows.length)
    (t : String) (n : Nat) : String :=
  if (rows.get i).custType = t ∧ rank_raw rows i ≤ n then "X" else ""

/-- The four-entity example of the spec: one customer-type partition with
balances 100, 100, 90, 80. -/
def exTonghop : List TonghopRow :=
  [⟨"KHCN", 100⟩, ⟨"KHCN", 100⟩, ⟨"KHCN", 90⟩, ⟨"KHCN", 80⟩]

/-- C6: the top-N marker is X exactly on rows of the partition whose min-rank
is at most N; on balances 100, 100, 90, 80 the min-ranks are 1, 1, 3, 4 (ties
share the minimum rank, not dense ranking), so top-3 marks the first three
rows and not the fourth. -/
theorem C6_ranking_min_topn :
    (∀ (rows : List TonghopRow) (i : Fin rows.length) (t : String) (n : Nat),
      top_mark rows i t n = "X" ↔
        (rows.get i).custType = t ∧ rank_raw rows i ≤ n) ∧
    (rank_raw exTonghop ⟨0, by decide⟩ = 1 ∧
      rank_raw exTonghop ⟨1, by decide⟩ = 1 ∧
      rank_raw exTonghop ⟨2, by decide⟩ = 3 ∧
      rank_raw exTonghop ⟨3, by decide⟩ = 4) ∧
    (top_mark exTonghop ⟨0, by decide⟩ "KHCN" 3 = "X" ∧
      top_mark exTonghop ⟨1, by decide⟩ "KHCN" 3 = "X" ∧
      top_mark exTonghop ⟨2, by decide⟩ "KHCN" 3 = "X" ∧
      top_mark exTonghop ⟨3, by decide⟩ "KHCN" 3 = "") ∧
    (∀ n, n ∈ ([10, 15, 20] : List Nat) →
      ∀ i : Fin exTonghop.length, top_mark exTonghop i "KHCN" n = "X") := by
  refine ⟨?_, by decide, by decide, by decide⟩
  intro rows i t n
  by_cases h : (rows.get i).custType = t ∧ rank_raw rows i ≤ n <;>
    simp [top_mark, h]

/-! ## Tabular Source Reader: text versus inferred cells -/

/-- A cell as materialized by the reader: kept as text, or coerced to a
number by read-time inference. -/
inductive CellValue where
  | text (s : String)
  | num (n : Nat)
deriving DecidableEq

/-- Fragment of the pandas read-time type inference applied when read_excel
is called without dtype: a cell whose text is a nonempty string of digits
becomes a number, dropping leading zeros; other cells are left as text.  The
real inference also covers decimals and dates; the integer fragment is what
the claim needs. -/
def inferCell (s : String) : CellValue :=
  if s ≠ "" ∧ s.data.all isAsciiDigit then CellValue.num (digitsVal s.data)
  else CellValue.text s

/-- read_excel_file_bytesio of DVKH.py lines 55-67: pd.read_excel with
dtype str, every cell kept as its text. -/
def read_excel_file_bytesio_cell (s : String) : CellValue := CellValue.text s

/-- The spreadsheet read of run_chuyen_tien, chuyen_tien.py line 33:
pd.read_excel with no dtype argument, so read-time inference applies. -/
def chuyen_tien_read_cell (s : String) : CellValue := inferCell s

/-- The spreadsheet read of run_to_khai_hq, to_khai_hq.py line 142:
pd.read_excel with no dtype argument, so read-time inference applies. -/
def to_khai_hq_read_cell (s : String) : CellValue := inferCell s

/-- C8 counterexample: the remittance and customs modules do not read every
cell as text - an identifier-looking cell 0012 is coerced and loses its
leading zeros. -/
theorem C8_reader_counterexample :
    chuyen_tien_read_cell "0012" ≠ CellValue.text "0012" ∧
    to_khai_hq_read_cell "0012" ≠ CellValue.text "0012" := by
  exact ⟨by decide, by decide⟩

/-- C8 amended: the DVKH reader reads every spreadsheet cell as text with no
numeric coercion, but the remittance (chuyen_tien) and customs (to_khai_hq)
modules read their spreadsheets with default inference, which coerces
numeric-looking cells. -/
theorem C8_reader_amended :
    (∀ s : String, read_excel_file_bytesio_cell s = CellValue.text s) ∧
    chuyen_tien_read_cell "0012" = CellValue.num 12 ∧
    to_khai_hq_read_cell "0012" = CellValue.num 12 :=
  ⟨fun _ => rfl, by decide, by decide⟩

end TongTC
